import Mathlib

/-!
Verification of the EchoVault command handlers against their natural-language
specification.  The Go handlers are shallowly embedded as Lean functions:
the key space is a function from keys to optional values, handlers return
an `Except` carrying the RESP reply (and the updated key space for writers).
Per-key locking is not modelled: every handler runs in isolation here, which
matches the per-key critical sections of the source.
-/

namespace EchoVault

deriving instance DecidableEq for Except

/-- Lexicographic order on character lists, the Go byte-wise string order
(they agree on the ASCII data of the claims). -/
def charListLt : List Char → List Char → Bool
  | [], [] => false
  | [], _ :: _ => true
  | _ :: _, [] => false
  | a :: as, b :: bs => decide (a < b) || (decide (a = b) && charListLt as bs)

/-- Go string `<`. -/
def strLtB (a b : String) : Bool := charListLt a.toList b.toList

/-- Go string `<=`. -/
def strLeB (a b : String) : Bool := ! strLtB b a

/-- ASCII lowercasing of one character. -/
def charLower (c : Char) : Char :=
  if 'A' ≤ c ∧ c ≤ 'Z' then Char.ofNat (c.toNat + 32) else c

/-- ASCII uppercasing of one character. -/
def charUpper (c : Char) : Char :=
  if 'a' ≤ c ∧ c ≤ 'z' then Char.ofNat (c.toNat - 32) else c

/-- ASCII uppercasing (Go `strings.ToUpper` on command words). -/
def upperAscii (s : String) : String := String.mk (s.toList.map charUpper)

/-- Decimal digits to a number, `none` when empty or non-digit. -/
def digitsToNat : List Char → Option Nat
  | [] => none
  | cs =>
    cs.foldl (fun acc c =>
      match acc with
      | none => none
      | some n => if c.isDigit then some (n * 10 + (c.toNat - 48)) else none) (some 0)

/-- Go `strconv.ParseInt` base 10 (a sign followed by digits; the int64
overflow bound is not modelled). -/
def toIntTok (s : String) : Option ℤ :=
  match s.toList with
  | '-' :: rest => (digitsToNat rest).map (fun n => -(n : ℤ))
  | '+' :: rest => (digitsToNat rest).map (fun n => (n : ℤ))
  | cs => (digitsToNat cs).map (fun n => (n : ℤ))

/-- ASCII lowercasing, modelling Go `strings.ToLower` / `strings.EqualFold`
as used on the ASCII command and option tokens. -/
def low (s : String) : String := String.mk (s.toList.map charLower)

/-- A scalar value as produced by the Go `AdaptType` token adaptor.  The Go
function tries integer parsing first, then float parsing, then falls back to
the raw string.  Decimal/float tokens are kept as raw strings in this model
(no claim below feeds float-shaped tokens to `AdaptType`). -/
inductive Scalar where
  | int (n : ℤ)
  | str (s : String)
deriving DecidableEq

/-- Go `utils.AdaptType` / `internal.AdaptType` restricted to the
integer-or-string cases exercised by the claims. -/
def adaptType (s : String) : Scalar :=
  match toIntTok s with
  | some n => Scalar.int n
  | none => Scalar.str s

/-- Go `fmt.Sprintf` with the percent-v verb on an adapted scalar. -/
def printScalar : Scalar → String
  | Scalar.int n => toString n
  | Scalar.str s => s

namespace OldList

/-!
Embedding of the list module of `src/src/plugins/string/command.go`
(package `list`).  Values in that key space are either strings or lists of
adapted scalars (`[]interface` in the source).
-/

inductive GoValue where
  | str (s : String)
  | list (l : List Scalar)
deriving DecidableEq

/-- The key space seen through `KeyExists` / `GetValue` / `SetValue`. -/
def Db : Type := String → Option GoValue

/-- Models `SetValue` (also covering `CreateKeyAndLock` followed by `SetValue`). -/
def dbSet (db : Db) (k : String) (v : GoValue) : Db :=
  fun key => if key = k then some v else db key

/-- The `OK` reply constant of the list module (note the trailing extra
newline present in the source). -/
def OK : String := "+OK\r\n\n"

/-- Handler `handleLIndex`: parses the index, requires the key to exist and hold a
list, and accepts only `0 <= index < len(list)` (source line:
`if !(index >= 0 && int(index) < len(list))`). -/
def handleLIndex (cmd : List String) (db : Db) : Except String String :=
  match cmd with
  | [_, key, idxTok] =>
    match adaptType idxTok with
    | Scalar.int index =>
      match db key with
      | none => Except.error ("LINDEX command on non-list item")
      | some (GoValue.str _) => Except.error ("LINDEX command on non-list item")
      | some (GoValue.list l) =>
        if 0 ≤ index ∧ index < (l.length : ℤ) then
          Except.ok ("+" ++ printScalar (l.getD index.toNat (Scalar.str (""))) ++ "\r\n\n")
        else
          Except.error ("index must be within list range")
    | Scalar.str _ => Except.error ("index must be an integer")
  | _ => Except.error ("wrong number of args for LINDEX command")

/-- The body written by the `LRANGE` element loop: a RESP bulk string per
element. -/
def lrangeBody (l : List Scalar) : String :=
  l.foldl (fun acc e =>
    acc ++ "$" ++ toString (printScalar e).length ++ "\r\n" ++ printScalar e ++ "\r\n") ("")

/-- Handler `handleLRange`.  `start` must satisfy `0 <= start < len`; `end` must be
in bounds or be exactly `-1` (meaning: up to the end of the list).  With a
concrete in-bounds `end` the source walks forward when `start < end` and
backward (producing the reversed segment) when `start > end`; equal indices
are an error. -/
def handleLRange (cmd : List String) (db : Db) : Except String String :=
  match cmd with
  | [_, key, startTok, endTok] =>
    match adaptType startTok, adaptType endTok with
    | Scalar.int start, Scalar.int stop =>
      match db key with
      | none => Except.error ("LRANGE command on non-list item")
      | some (GoValue.str _) => Except.error ("type cannot be returned with LRANGE command")
      | some (GoValue.list l) =>
        if ¬ (0 ≤ start ∧ start < (l.length : ℤ)) then
          Except.error ("start index not within list range")
        else if ¬ ((0 ≤ stop ∧ stop < (l.length : ℤ)) ∨ stop = -1) then
          Except.error ("end index must be within list range or -1")
        else if stop = -1 then
          Except.ok ("*" ++ toString ((l.length : ℤ) - start) ++ "\r\n" ++
            lrangeBody (l.drop start.toNat) ++ "\n")
        else if start = stop then
          Except.error ("start and end indices cannot be equal")
        else if start < stop then
          Except.ok ("*" ++ toString ((start - stop).natAbs + 1) ++ "\r\n" ++
            lrangeBody ((l.drop start.toNat).take (stop - start).toNat.succ) ++ "\n")
        else
          Except.ok ("*" ++ toString ((start - stop).natAbs + 1) ++ "\r\n" ++
            lrangeBody (((l.drop stop.toNat).take (start - stop).toNat.succ).reverse) ++ "\n")
    | _, _ => Except.error ("both start and end indices must be integers")
  | _ => Except.error ("wrong number of arguments for LRANGE command")

/-- The `LREM` marking loop scanning head to tail: elements equal (under
percent-v printing) to `value` are replaced by `nil` (`none` here) until the
budget runs out; the remaining suffix is left untouched. -/
def markHead (value : String) : List Scalar → Nat → List (Option Scalar)
  | [], _ => []
  | e :: rest, b =>
    if b = 0 then (e :: rest).map some
    else if printScalar e = value then none :: markHead value rest (b - 1)
    else some e :: markHead value rest b

/-- Specification-side companion of `markHead` followed by the nil filter:
drop the first `b` occurrences of `value`, scanning head to tail. -/
def removeFirstMatches (value : String) : List Scalar → Nat → List Scalar
  | [], _ => []
  | e :: rest, b =>
    if b = 0 then e :: rest
    else if printScalar e = value then removeFirstMatches value rest (b - 1)
    else e :: removeFirstMatches value rest b

/-- Specification-side: drop the last `b` occurrences of `value`, scanning
tail to head. -/
def removeLastMatches (value : String) (l : List Scalar) (b : Nat) : List Scalar :=
  (removeFirstMatches value l.reverse b).reverse

/-- Handler `handleLRem`: a positive count marks matches head to tail, a negative
count marks matches tail to head (the source loops the index downward,
modelled by marking the reversed list), and a zero count marks nothing
(source comment: `Count is zero, keep list the same`); afterwards the `nil`
markers are filtered out and the list is stored back. -/
def handleLRem (cmd : List String) (db : Db) : Except String (String × Db) :=
  match cmd with
  | [_, key, countTok, value] =>
    match adaptType countTok with
    | Scalar.str _ => Except.error ("count must be an integer")
    | Scalar.int count =>
      match db key with
      | none => Except.error ("LREM command on non-list item")
      | some (GoValue.str _) => Except.error ("LREM command on non-list item")
      | some (GoValue.list l) =>
        let marked : List (Option Scalar) :=
          if 0 < count then markHead value l count.natAbs
          else if count < 0 then (markHead value l.reverse count.natAbs).reverse
          else l.map some
        Except.ok (OK, dbSet db key (GoValue.list (marked.filterMap id)))
  | _ => Except.error ("wrong number of arguments for LREM command")

/-- Handler `handleRPush` (command token `rpush` or `rpushx`): creates an empty list
for an absent key (error for `rpushx`), appends the adapted elements at the
tail and replies `OK` -- not the new length. -/
def handleRPush (cmd : List String) (db : Db) : Except String (String × Db) :=
  match cmd with
  | c0 :: key :: e0 :: elems =>
    let newElems : List Scalar := (e0 :: elems).map adaptType
    let prepared : Except String Db :=
      match db key with
      | none =>
        if low c0 = "rpushx" then Except.error (c0 ++ " command on non-list item")
        else Except.ok (dbSet db key (GoValue.list []))
      | some _ => Except.ok db
    match prepared with
    | Except.error e => Except.error e
    | Except.ok db1 =>
      match db1 key with
      | some (GoValue.list l) =>
        Except.ok (OK, dbSet db1 key (GoValue.list (l ++ newElems)))
      | _ => Except.error ("RPUSH command on non-list item")
  | _ => Except.error ("wrong number of arguments for RPUSH command")

/-- Handler `handlePop` (command token `lpop` or `rpop`).  The source indexes
`list[0]` / `list[len-1]` without an emptiness check; the empty-list case
(a Go runtime panic) is modelled as an error. -/
def handlePop (cmd : List String) (db : Db) : Except String (String × Db) :=
  match cmd with
  | [c0, key] =>
    match db key with
    | none => Except.error (upperAscii c0 ++ " command on non-list item")
    | some (GoValue.str _) => Except.error (upperAscii c0 ++ " command on non-list item")
    | some (GoValue.list l) =>
      if low c0 = "rpop" then
        match l.getLast? with
        | none => Except.error ("runtime panic: index out of range")
        | some e =>
          Except.ok ("+" ++ printScalar e ++ "\r\n\n",
            dbSet db key (GoValue.list (l.take (l.length - 1))))
      else
        match l with
        | [] => Except.error ("runtime panic: index out of range")
        | e :: rest =>
          Except.ok ("+" ++ printScalar e ++ "\r\n\n", dbSet db key (GoValue.list rest))
  | _ => Except.error ("wrong number of args for POP command")

end OldList

namespace Modern

/-!
Embedding of the current-generation modules: the `str` plugin of
`src/unnamed/part_002` and the `sorted_set` / hash plugin of
`src/unnamed/part_001`.  Scores are modelled as rationals extended with the
two infinities; IEEE-754 rounding plays no role in the claims below.
-/

/-- A sorted-set score: `f64` in the source, here a rational or an
infinity. -/
inductive Score where
  | negInf
  | fin (q : ℚ)
  | posInf
deriving DecidableEq

/-- Boolean comparison of scores, the `a <= b` used throughout the
handlers. -/
def Score.leB : Score → Score → Bool
  | Score.negInf, _ => true
  | Score.fin _, Score.negInf => false
  | Score.fin x, Score.fin y => decide (x ≤ y)
  | Score.fin _, Score.posInf => true
  | Score.posInf, Score.posInf => true
  | Score.posInf, _ => false

/-- Boolean strict comparison of scores. -/
def Score.ltB : Score → Score → Bool
  | Score.negInf, Score.negInf => false
  | Score.negInf, _ => true
  | Score.fin _, Score.negInf => false
  | Score.fin x, Score.fin y => decide (x < y)
  | Score.fin _, Score.posInf => true
  | Score.posInf, _ => false

def Score.le (a b : Score) : Prop := Score.leB a b = true

def Score.lt (a b : Score) : Prop := Score.ltB a b = true

instance : DecidableRel Score.le :=
  fun a b => inferInstanceAs (Decidable (Score.leB a b = true))

instance : DecidableRel Score.lt :=
  fun a b => inferInstanceAs (Decidable (Score.ltB a b = true))

/-- IEEE addition of scores; the sum of opposite infinities is undefined
(an error in the engine, per the spec). -/
def scoreAdd : Score → Score → Option Score
  | Score.fin a, Score.fin b => some (Score.fin (a + b))
  | Score.fin _, Score.posInf => some Score.posInf
  | Score.fin _, Score.negInf => some Score.negInf
  | Score.posInf, Score.fin _ => some Score.posInf
  | Score.posInf, Score.posInf => some Score.posInf
  | Score.posInf, Score.negInf => none
  | Score.negInf, Score.fin _ => some Score.negInf
  | Score.negInf, Score.negInf => some Score.negInf
  | Score.negInf, Score.posInf => none

/-- Split a character list at the dots (Go `strings.Split` on a period). -/
def splitOnDot : List Char → List Char → List (List Char)
  | [], acc => [acc.reverse]
  | c :: rest, acc =>
    if c = '.' then acc.reverse :: splitOnDot rest [] else splitOnDot rest (c :: acc)

/-- Whether the token begins with a minus sign. -/
def isNegTok : List Char → Bool
  | '-' :: _ => true
  | _ => false

/-- Parse a decimal numeric token (Go `strconv` accepts further forms --
exponents, hexadecimal floats -- that no claim exercises). -/
def parseScoreNum (s : String) : Option ℚ :=
  match toIntTok s with
  | some n => some (n : ℚ)
  | none =>
    match splitOnDot s.toList [] with
    | [ip, fp] =>
      match toIntTok (String.mk ip), digitsToNat fp with
      | some i, some f =>
        let den : ℚ := (10 : ℚ) ^ fp.length
        some (if isNegTok s.toList then (i : ℚ) - f / den else (i : ℚ) + f / den)
      | _, _ => none
    | _ => none

/-- Parse a score token: the `-inf` / `+inf` literals (handled by the
handlers through `strings.ToLower`) or a number. -/
def parseScore (s : String) : Option Score :=
  if low s = "-inf" then some Score.negInf
  else if low s = "+inf" then some Score.posInf
  else (parseScoreNum s).map Score.fin

/-- A token that `handleZADD` recognises as the start of the score/member
pairs (a number or an infinity literal). -/
def tokenIsScore (s : String) : Bool := (parseScore s).isSome

def padLeftZeros (s : String) (n : Nat) : String :=
  String.mk (List.replicate (n - s.length) '0') ++ s

/-- Go `fmt.Sprintf` percent-f rendering of a finite score: six decimal
places. -/
def fmtF6 (q : ℚ) : String :=
  let sgn := if q < 0 then ("-") else ("")
  let a : ℚ := |q|
  let scaled : ℤ := Int.floor (a * 1000000 + 1 / 2)
  sgn ++ toString (scaled / 1000000) ++ "." ++ padLeftZeros (toString (scaled % 1000000)) 6

/-- Go percent-f rendering of a score. -/
def fmtScore : Score → String
  | Score.fin q => fmtF6 q
  | Score.posInf => "+Inf"
  | Score.negInf => "-Inf"

/-- Whether the string starts with the given character. -/
def startsWithChar (s : String) (c : Char) : Bool :=
  match s.toList with
  | x :: _ => x = c
  | [] => false

/-- Three-way string comparison. -/
def cmpStr (a b : String) : ℤ := if strLtB a b then -1 else if a = b then 0 else 1

/-- Modelled from the spec: `internal.CompareLex` (not among the sources)
compares a member value against a lexicographic range spec supporting the
`-` / `+` sentinels and `[x` inclusive / `(x` exclusive prefixes.  A
three-way comparison cannot express exclusivity, so the `(` prefix is
modelled like the inclusive one; no claim exercises it. -/
def compareLex (a b : String) : ℤ :=
  if b = "-" then 1
  else if b = "+" then -1
  else if startsWithChar b '[' then cmpStr a (String.mk (b.toList.drop 1))
  else if startsWithChar b '(' then cmpStr a (String.mk (b.toList.drop 1))
  else cmpStr a b

/-- A sorted-set record. -/
structure Member where
  value : String
  score : Score
deriving DecidableEq

/-- Canonical record order: score ascending, ties broken by value
lexicographic ascending. -/
def Member.cle (a b : Member) : Prop :=
  Score.lt a.score b.score ∨ (a.score = b.score ∧ strLeB a.value b.value = true)

/-- Score-only order, the comparator of the byscore sort in
`handleZRANGE`. -/
def Member.sle (a b : Member) : Prop := Score.le a.score b.score

/-- Reversed score-only order (the `REV` option). -/
def Member.sge (a b : Member) : Prop := Score.le b.score a.score

/-- Value-lexicographic order, the comparator of the bylex sort. -/
def Member.vle (a b : Member) : Prop := strLeB a.value b.value = true

/-- Reversed value-lexicographic order. -/
def Member.vge (a b : Member) : Prop := strLeB b.value a.value = true

instance : DecidableRel Member.cle := fun a b => by
  unfold Member.cle; infer_instance

instance : DecidableRel Member.sle := fun a b => by
  unfold Member.sle; infer_instance

instance : DecidableRel Member.sge := fun a b => by
  unfold Member.sge; infer_instance

instance : DecidableRel Member.vle := fun a b => by
  unfold Member.vle; infer_instance

instance : DecidableRel Member.vge := fun a b => by
  unfold Member.vge; infer_instance

/-- Modelled from the spec: the internal sorted-set engine (package
`internal/sorted_set`, not among the sources) keeps records unique by value
and iterable in the canonical order -- score ascending, value-lexicographic
tie-break; `GetAll` yields the records in that order.  The sort is a stable
insertion sort here; Go leaves the relative order of equal elements to the
sort implementation. -/
def getAll (s : List Member) : List Member := List.insertionSort Member.cle s

/-- Look a record up by value (`SortedSet.Get`). -/
def memberGet (s : List Member) (v : String) : Option Member :=
  s.find? (fun m => m.value = v)

/-- Insert or overwrite a record, keeping values unique. -/
def upsert (s : List Member) (m : Member) : List Member :=
  if (s.find? (fun x => x.value = m.value)).isSome then
    s.map (fun x => if x.value = m.value then m else x)
  else s ++ [m]

/-- Modelled from the spec: `NewSortedSet` collects the given members with
uniqueness on value (a later pair overwrites an earlier score). -/
def newSortedSet (members : List Member) : List Member := members.foldl upsert []

/-- A value of the modern key space: string, sorted set, or hash. -/
inductive Value where
  | str (s : String)
  | zset (s : List Member)
  | hash (h : List (String × Scalar))
deriving DecidableEq

def Db : Type := String → Option Value

def dbSet (db : Db) (k : String) (v : Value) : Db :=
  fun key => if key = k then some v else db key

def wrongArgs : String := "wrong number of arguments"

/-- Handler `handleSubStr` of the `str` plugin (`src/unnamed/part_002`), the shared
handler of `SUBSTR` and `GETRANGE`.  Negative indices are normalised to
`len - abs(i)`; the end bound is then bumped past the end character when it
does not precede the start, clamped to the length, and when the start still
exceeds the end the two are swapped and the sliced characters are returned
reversed.  Go panics on a slice whose bounds escape `[0, len]`; that case is
modelled as an error.  Byte indexing coincides with this character model on
ASCII data. -/
def handleSubStr (cmd : List String) (db : Db) : Except String String :=
  match cmd with
  | [_, key, startTok, endTok] =>
    match adaptType startTok, adaptType endTok with
    | Scalar.int start0, Scalar.int end0 =>
      match db key with
      | none => Except.error ("key " ++ key ++ " does not exist")
      | some (Value.str value) =>
        let L : ℤ := value.length
        let s1 : ℤ := if start0 < 0 then L - start0.natAbs else start0
        let e1 : ℤ := if end0 < 0 then L - end0.natAbs else end0
        let e2 : ℤ := if 0 ≤ e1 ∧ s1 ≤ e1 then e1 + 1 else e1
        let e3 : ℤ := if L < e2 then L else e2
        let lo : ℤ := if e3 < s1 then e3 else s1
        let hi : ℤ := if e3 < s1 then s1 else e3
        if 0 ≤ lo ∧ hi ≤ L then
          let chars := (value.toList.drop lo.toNat).take (hi - lo).toNat
          let str := if e3 < s1 then String.mk chars.reverse else String.mk chars
          Except.ok ("$" ++ toString str.length ++ "\r\n" ++ str ++ "\r\n")
        else Except.error ("runtime panic: slice bounds out of range")
      | some _ => Except.error ("value at key " ++ key ++ " is not a string")
    | _, _ => Except.error ("start and end indices must be integers")
  | _ => Except.error wrongArgs

/-- Handler `handleStrLen` of the `str` plugin. -/
def handleStrLen (cmd : List String) (db : Db) : Except String String :=
  match cmd with
  | [_, key] =>
    match db key with
    | none => Except.ok (":0\r\n")
    | some (Value.str value) => Except.ok (":" ++ toString value.length ++ "\r\n")
    | some _ => Except.error ("value at key " ++ key ++ " is not a string")
  | _ => Except.error wrongArgs

/-- The overwrite loop of `handleSetRange`: replace characters of `str`
from `offset` on by the characters of `newStr`, appending whatever runs past
the end. -/
def overlayFrom (str newStr : List Char) (offset : Nat) : List Char :=
  if offset + newStr.length ≤ str.length then
    str.take offset ++ newStr ++ str.drop (offset + newStr.length)
  else str.take offset ++ newStr

/-- Handler `handleSetRange` of the `str` plugin: creates the key when absent, and
otherwise appends (offset past the end), prepends (negative offset), or
overwrites in place; replies with the resulting length. -/
def handleSetRange (cmd : List String) (db : Db) : Except String (String × Db) :=
  match cmd with
  | [_, key, offTok, newStr] =>
    match adaptType offTok with
    | Scalar.str _ => Except.error ("offset must be an integer")
    | Scalar.int offset =>
      match db key with
      | none =>
        Except.ok (":" ++ toString newStr.length ++ "\r\n", dbSet db key (Value.str newStr))
      | some (Value.str str) =>
        if (str.length : ℤ) ≤ offset then
          let r := str ++ newStr
          Except.ok (":" ++ toString r.length ++ "\r\n", dbSet db key (Value.str r))
        else if offset < 0 then
          let r := newStr ++ str
          Except.ok (":" ++ toString r.length ++ "\r\n", dbSet db key (Value.str r))
        else
          let r := String.mk (overlayFrom str.toList newStr.toList offset.toNat)
          Except.ok (":" ++ toString r.length ++ "\r\n", dbSet db key (Value.str r))
      | some _ => Except.error ("value at key " ++ key ++ " is not a string")
  | _ => Except.error wrongArgs

/-- Identifies the handler function carried by a registry entry of the
`str` plugin. -/
inductive StrHandlerId where
  | setrange
  | strlen
  | substr
deriving DecidableEq

/-- A registry entry (`types.Command`); categories, descriptions and the
sync flag are irrelevant to dispatch and omitted. -/
structure StrCommand where
  command : String
  handlerId : StrHandlerId
deriving DecidableEq

/-- The `Commands()` list of the `str` plugin: four entries, with `substr`
and `getrange` both carrying `handleSubStr` (and the same key function). -/
def strCommands : List StrCommand :=
  [⟨"setrange", StrHandlerId.setrange⟩,
   ⟨"strlen", StrHandlerId.strlen⟩,
   ⟨"substr", StrHandlerId.substr⟩,
   ⟨"getrange", StrHandlerId.substr⟩]

def runStrHandler (h : StrHandlerId) (cmd : List String) (db : Db) :
    Except String (String × Db) :=
  match h with
  | StrHandlerId.setrange => handleSetRange cmd db
  | StrHandlerId.strlen => (handleStrLen cmd db).map (fun r => (r, db))
  | StrHandlerId.substr => (handleSubStr cmd db).map (fun r => (r, db))

/-- Modelled from the spec: the dispatcher looks the lowercased command
word up in the registry and invokes the entry's handler (the old plugin's
`HandleCommand` switch at `command.go:46` routes `substr` and `getrange`
identically). -/
def strDispatch (cmd : List String) (db : Db) : Except String (String × Db) :=
  match cmd with
  | [] => Except.error ("command unknown")
  | c0 :: _ =>
    match strCommands.find? (fun e => e.command = low c0) with
    | none => Except.error ("command unknown")
    | some e => runStrHandler e.handlerId cmd db

/-- Index of the first token satisfying the predicate (the
`membersStartIndex` scan of `handleZADD` and the `limit` scan of
`handleZRANGE`). -/
def firstIdxWhere (p : String → Bool) : List String → Option Nat
  | [] => none
  | t :: rest => if p t then some 0 else (firstIdxWhere p rest).map Nat.succ

/-- The score/member pair parser of `handleZADD`.  A score token that is
neither numeric nor an infinity literal reaches the `case string` arm of
the source switch, matches neither `if`, and is appended as nothing --
silently skipped (the `default: return error` arm is unreachable because
`AdaptType` only produces strings, floats and ints). -/
def parseMemberPairs : List String → List Member
  | sTok :: vTok :: rest =>
    (match parseScore sTok with
     | some sc => fun tl => Member.mk vTok sc :: tl
     | none => id) (parseMemberPairs rest)
  | _ => []

/-- The option state of `handleZADD` (`updatePolicy`, `comparison`,
`changed`, `incr`; the source keeps them as `interface` values holding the
option token, compared case-insensitively, so the lowercased token is
stored here). -/
structure ZaddOpts where
  policy : Option String
  comp : Option String
  changed : Bool
  incr : Bool
deriving DecidableEq

def zaddOpts0 : ZaddOpts := ⟨none, none, false, false⟩

/-- The option loop of `handleZADD` over `cmd[2:membersStartIndex]`.  An
`nx`/`xx` token overwrites the policy and then errors when it is `nx` with
a comparison already seen; a `gt`/`lt` token sets the comparison and then
errors when the policy held at that moment is `nx`; `incr` errors when more
than one score/member pair was parsed. -/
def parseZaddOptionsAux (nMembers : Nat) : List String → ZaddOpts → Except String ZaddOpts
  | [], st => Except.ok st
  | o :: rest, st =>
    if low o = "xx" ∨ low o = "nx" then
      if low o = "nx" ∧ st.comp.isSome then
        Except.error ("GT/LT flags not allowed if NX flag is provided")
      else parseZaddOptionsAux nMembers rest { st with policy := some (low o) }
    else if low o = "gt" ∨ low o = "lt" then
      if st.policy = some ("nx") then
        Except.error ("GT/LT flags not allowed if NX flag is provided")
      else parseZaddOptionsAux nMembers rest { st with comp := some (low o) }
    else if low o = "ch" then parseZaddOptionsAux nMembers rest { st with changed := true }
    else if low o = "incr" then
      if 1 < nMembers then
        Except.error ("cannot pass more than one score/member pair when INCR flag is provided")
      else parseZaddOptionsAux nMembers rest { st with incr := true }
    else Except.error ("invalid option " ++ o)

def parseZaddOptions (opts : List String) (nMembers : Nat) : Except String ZaddOpts :=
  parseZaddOptionsAux nMembers opts zaddOpts0

/-- Modelled from the spec (section 4.2): `AddOrUpdate` of the sorted-set
engine (not among the sources).  `OnlyIfAbsent` / `OnlyIfPresent` policies,
`OnlyIfGreater` / `OnlyIfLess` comparisons against the existing score,
`changed` also counting score updates, `incr` requiring exactly one member
and adding the provided score to the existing one (sum of opposite
infinities is an error); the return value counts insertions (plus updates
under `changed`). -/
def addOrUpdate (s : List Member) (members : List Member) (policy comp : Option String)
    (changed incr : Bool) : Except String (ℤ × List Member) :=
  if incr then
    match members with
    | [m] =>
      match memberGet s m.value with
      | some old =>
        if policy = some ("nx") then Except.ok (0, s)
        else
          match scoreAdd old.score m.score with
          | none => Except.error ("cannot add infinities of opposite signs")
          | some ns =>
            if (comp = some ("gt") ∧ ¬ Score.lt old.score ns) ∨
               (comp = some ("lt") ∧ ¬ Score.lt ns old.score) then Except.ok (0, s)
            else Except.ok (if changed then 1 else 0, upsert s ⟨m.value, ns⟩)
      | none =>
        if policy = some ("xx") then Except.ok (0, s)
        else Except.ok (1, upsert s m)
    | _ => Except.error ("INCR can only be used with one score/member pair")
  else
    Except.ok (members.foldl (fun acc m =>
      match memberGet acc.2 m.value with
      | some old =>
        if policy = some ("nx") then acc
        else if (comp = some ("gt") ∧ ¬ Score.lt old.score m.score) ∨
                (comp = some ("lt") ∧ ¬ Score.lt m.score old.score) then acc
        else ((if changed ∧ old.score ≠ m.score then acc.1 + 1 else acc.1), upsert acc.2 m)
      | none =>
        if policy = some ("xx") then acc
        else (acc.1 + 1, upsert acc.2 m)) (0, s))

/-- Handler `handleZADD` (`src/unnamed/part_001:33`).  `membersStartIndex` is the
first token recognised as a score; options live between index 2 and there.
When the key exists the engine call mutates the stored set and the `INCR`
reply is the member's fresh score formatted with percent-f; when the key
does not exist a new set is built from the members and the reply is its
cardinality -- whatever the options said. -/
def handleZADD (cmd : List String) (db : Db) : Except String (String × Db) :=
  if cmd.length < 4 then Except.error wrongArgs
  else
    let key := cmd.getD 1 ""
    let msi : Nat :=
      match firstIdxWhere tokenIsScore cmd with
      | some i => i
      | none => 0
    if msi < 2 ∨ (cmd.length - msi) % 2 ≠ 0 then
      Except.error ("score/member pairs must be float/string")
    else
      let members := parseMemberPairs (cmd.drop msi)
      match parseZaddOptions ((cmd.drop 2).take (msi - 2)) members.length with
      | Except.error e => Except.error e
      | Except.ok opts =>
        match db key with
        | some (Value.zset s) =>
          match addOrUpdate s members opts.policy opts.comp opts.changed opts.incr with
          | Except.error e => Except.error e
          | Except.ok (count, s1) =>
            if opts.incr then
              let sc := match memberGet s1 (members.headD ⟨"", Score.fin 0⟩).value with
                | some m => m.score
                | none => Score.fin 0
              Except.ok ("+" ++ fmtScore sc ++ "\r\n", dbSet db key (Value.zset s1))
            else Except.ok (":" ++ toString count ++ "\r\n", dbSet db key (Value.zset s1))
        | some _ => Except.error ("value at " ++ key ++ " is not a sorted set")
        | none =>
          let s1 := newSortedSet members
          Except.ok (":" ++ toString (s1.length : ℤ) ++ "\r\n", dbSet db key (Value.zset s1))

/-- Check that the first `n` adjacent score pairs of the list agree. -/
def eqScoresPref : List Member → Nat → Bool
  | _, 0 => true
  | a :: b :: rest, Nat.succ n => decide (a.score = b.score) && eqScoresPref (b :: rest) n
  | _, Nat.succ _ => true

/-- Membership of a value in a lexicographic range, as the handlers test it
through `CompareLex`. -/
def inLexRange (v minimum maximum : String) : Bool :=
  (compareLex v minimum == 1 || compareLex v minimum == 0) &&
  (compareLex v maximum == -1 || compareLex v maximum == 0)

/-- Handler `handleZLEXCOUNT` (`src/unnamed/part_001:276`).  The equal-score guard
loops `for i := 0; i < len(members)-2; i++`, so the final adjacent pair is
never compared -- unlike the `len(members)-1` loops of
`handleZREMRANGEBYLEX` and the bylex branch of `handleZRANGE` -- although
its comment says `Check if all members has the same score`. -/
def handleZLEXCOUNT (cmd : List String) (db : Db) : Except String String :=
  match cmd with
  | [_, key, minimum, maximum] =>
    match db key with
    | none => Except.ok (":0\r\n")
    | some (Value.zset s) =>
      let members := getAll s
      if eqScoresPref members (members.length - 2) then
        Except.ok (":" ++
          toString (members.filter (fun m => inLexRange m.value minimum maximum)).length ++
          "\r\n")
      else Except.ok (":0\r\n")
    | some _ => Except.error ("value at " ++ key ++ " is not a sorted set")
  | _ => Except.error wrongArgs

/-- One `set.Remove(m)` step of the `handleZREM` loop (the engine `remove`
is modelled from the spec: drop the record with that value, report whether
it existed). -/
def zremStep (acc : ℤ × List Member) (v : String) : ℤ × List Member :=
  if (acc.2.find? (fun m => m.value = v)).isSome then
    (acc.1 + 1, acc.2.filter (fun m => m.value ≠ v))
  else acc

/-- Handler `handleZREM` (`src/unnamed/part_001:935`): removes each listed member,
counts the ones that existed, and stores the (possibly empty) set back at
the key -- the key itself is never deleted. -/
def handleZREM (cmd : List String) (db : Db) : Except String (String × Db) :=
  match cmd with
  | _ :: key :: m0 :: ms =>
    match db key with
    | none => Except.ok (":0\r\n", db)
    | some (Value.zset s) =>
      let r := (m0 :: ms).foldl zremStep (0, s)
      Except.ok (":" ++ toString r.1 ++ "\r\n", dbSet db key (Value.zset r.2))
    | some _ => Except.error ("value at " ++ key ++ " is not a sorted set")
  | _ => Except.error wrongArgs

/-- Handler `handleZREMRANGEBYSCORE` (`src/unnamed/part_001:995`): parses the two
bounds, then removes every record whose score lies in the inclusive range,
iterating over a `GetAll` snapshot; the key keeps its (possibly empty)
set. -/
def handleZREMRANGEBYSCORE (cmd : List String) (db : Db) : Except String (String × Db) :=
  match cmd with
  | [_, key, minTok, maxTok] =>
    match parseScore minTok, parseScore maxTok with
    | some lo, some hi =>
      match db key with
      | none => Except.ok (":0\r\n", db)
      | some (Value.zset s) =>
        let r := (getAll s).foldl (fun acc m =>
          if Score.le lo m.score ∧ Score.le m.score hi then
            (acc.1 + 1, acc.2.filter (fun x => x.value ≠ m.value))
          else acc) ((0 : ℤ), s)
        Except.ok (":" ++ toString r.1 ++ "\r\n", dbSet db key (Value.zset r.2))
      | some _ => Except.error ("value at " ++ key ++ " is not a sorted set")
    | _, _ => Except.error ("min and max must be floats")
  | _ => Except.error wrongArgs

/-- Handler `handleZREMRANGEBYLEX` (`src/unnamed/part_001:1104`): when all adjacent
score pairs agree (the correct `len(members)-1` loop) it removes the
records inside the lexicographic range; otherwise it replies `:0` and
leaves the set untouched.  Either way the key stays present. -/
def handleZREMRANGEBYLEX (cmd : List String) (db : Db) : Except String (String × Db) :=
  match cmd with
  | [_, key, minTok, maxTok] =>
    match db key with
    | none => Except.ok (":0\r\n", db)
    | some (Value.zset s) =>
      let members := getAll s
      if eqScoresPref members (members.length - 1) then
        let r := members.foldl (fun acc m =>
          if inLexRange m.value minTok maxTok then
            (acc.1 + 1, acc.2.filter (fun x => x.value ≠ m.value))
          else acc) ((0 : ℤ), s)
        Except.ok (":" ++ toString r.1 ++ "\r\n", dbSet db key (Value.zset r.2))
      else Except.ok (":0\r\n", db)
    | some _ => Except.error ("value at " ++ key ++ " is not a sorted set")
  | _ => Except.error wrongArgs

/-- Go `strconv.FormatFloat(f, 102, -1, 64)` renders the shortest decimal;
abstracted here (no claim depends on it). -/
def fmtScoreShortest : Score → String
  | Score.fin q => toString q
  | Score.posInf => "+Inf"
  | Score.negInf => "-Inf"

/-- The reply composition loop of `handleZRANGE`: a `*n` header, then each
member as a one-element (or, with scores, two-element) nested array, and a
final CRLF. -/
def zrangeEncode (ms : List Member) (withscores : Bool) : String :=
  "*" ++ toString ms.length ++
    ms.foldl (fun acc m =>
      if withscores then
        acc ++ "\r\n*2\r\n$" ++ toString m.value.length ++ "\r\n" ++ m.value ++
          "\r\n+" ++ fmtScoreShortest m.score
      else
        acc ++ "\r\n*1\r\n$" ++ toString m.value.length ++ "\r\n" ++ m.value) ("") ++
    "\r\n"

/-- Handler `handleZRANGE` (`src/unnamed/part_001:1152`).  Flags are scanned in
`cmd[4:]`; without `BYLEX` the two bounds must parse as floats (`-inf` and
`+inf` are accepted by `strconv.ParseFloat`).  The member snapshot is
sorted -- by score for the byscore policy -- and the loop
`for i := offset; i <= count; i++` (breaking at the length) collects the
members inside the bounds; `count < 0` is replaced by
`Cardinality - offset`. -/
def handleZRANGE (cmd : List String) (db : Db) : Except String String :=
  if cmd.length < 4 ∨ 10 < cmd.length then Except.error wrongArgs
  else
    let key := cmd.getD 1 ""
    let rest := cmd.drop 4
    let withscores := rest.any (fun s => low s = "withscores")
    let rev := rest.any (fun s => low s = "rev")
    let byLex := rest.any (fun s => low s = "bylex")
    let scoreBounds : Except String (Score × Score) :=
      if byLex then Except.ok (Score.negInf, Score.posInf)
      else
        match parseScore (cmd.getD 2 ""), parseScore (cmd.getD 3 "") with
        | some a, some b => Except.ok (a, b)
        | _, _ => Except.error ("start and stop must be valid floats")
    match scoreBounds with
    | Except.error e => Except.error e
    | Except.ok (scoreStart, scoreStop) =>
      let limitParse : Except String (ℤ × ℤ) :=
        match firstIdxWhere (fun s => low s = "limit") rest with
        | none => Except.ok (0, -1)
        | some li =>
          if (rest.length : ℤ) - 3 < (li : ℤ) then
            Except.error ("limit should contain offset and count as integers")
          else
            match (rest.getD (li + 1) "").toInt? with
            | none => Except.error ("limit offset must be integer")
            | some off =>
              if off < 0 then Except.error ("limit offset must be >= 0")
              else
                match (rest.getD (li + 2) "").toInt? with
                | none => Except.error ("limit count must be integer")
                | some cnt => Except.ok (off, cnt)
      match limitParse with
      | Except.error e => Except.error e
      | Except.ok (offset, count0) =>
        match db key with
        | none => Except.ok ("*0\r\n")
        | some (Value.zset s) =>
          if (s.length : ℤ) < offset then Except.ok ("*0\r\n")
          else
            let count : ℤ := if count0 < 0 then (s.length : ℤ) - offset else count0
            let members := getAll s
            if byLex ∧ ¬ (eqScoresPref members (members.length - 1) = true) then
              Except.ok ("*0\r\n")
            else
              let sorted :=
                if byLex then
                  if rev then List.insertionSort Member.vge members
                  else List.insertionSort Member.vle members
                else
                  if rev then List.insertionSort Member.sge members
                  else List.insertionSort Member.sle members
              let window := (sorted.drop offset.toNat).take (count + 1 - offset).toNat
              let picked := window.filter (fun m =>
                if byLex then inLexRange m.value (cmd.getD 2 "") (cmd.getD 3 "")
                else Score.leB scoreStart m.score && Score.leB m.score scoreStop)
              Except.ok (zrangeEncode picked withscores)
        | some _ => Except.error ("value at " ++ key ++ " is not a sorted set")

/-- One field deletion of the `handleHDEL` loop: a present field is removed
and counted. -/
def hdelStep (acc : Nat × List (String × Scalar)) (f : String) :
    Nat × List (String × Scalar) :=
  if (acc.2.find? (fun p => p.1 = f)).isSome then
    (acc.1 + 1, acc.2.filter (fun p => p.1 ≠ f))
  else acc

/-- Handler `handleHDEL` (`src/unnamed/part_001:2391`): deletes the listed fields
from the hash, counts the ones that existed, and stores the (possibly
empty) hash back at the key -- the key itself is never deleted. -/
def handleHDEL (cmd : List String) (db : Db) : Except String (String × Db) :=
  match cmd with
  | _ :: key :: f0 :: fs =>
    match db key with
    | none => Except.ok (":0\r\n", db)
    | some (Value.hash h) =>
      let r := (f0 :: fs).foldl hdelStep (0, h)
      Except.ok (":" ++ toString r.1 ++ "\r\n", dbSet db key (Value.hash r.2))
    | some _ => Except.error ("value at " ++ key ++ " is not a hash")
  | _ => Except.error wrongArgs

instance : IsTrans Member Member.sle := by
  constructor
  have tr : ∀ x y z : Score, Score.leB x y = true → Score.leB y z = true →
      Score.leB x z = true := by
    intro x y z hxy hyz
    cases x <;> cases y <;> cases z <;> simp [Score.leB] at * <;> linarith
  intro a b c hab hbc
  exact tr a.score b.score c.score hab hbc

instance : IsTotal Member Member.sle := by
  constructor
  have tot : ∀ x y : Score, Score.leB x y = true ∨ Score.leB y x = true := by
    intro x y
    cases x <;> cases y <;> simp [Score.leB] <;> exact le_total _ _
  intro a b
  exact tot a.score b.score

instance : IsTrans Member Member.cle := by
  constructor
  have trlt : ∀ x y z : Score, Score.ltB x y = true → Score.ltB y z = true →
      Score.ltB x z = true := by
    intro x y z hxy hyz
    cases x <;> cases y <;> cases z <;> simp [Score.ltB] at * <;> linarith
  intro a b c hab hbc
  rcases hab with h1 | ⟨he1, hv1⟩
  · rcases hbc with h2 | ⟨he2, hv2⟩
    · exact Or.inl (trlt _ _ _ h1 h2)
    · exact Or.inl (he2 ▸ h1)
  · rcases hbc with h2 | ⟨he2, hv2⟩
    · refine Or.inl ?_
      show Score.ltB a.score c.score = true
      rw [he1]
      exact h2
    · refine Or.inr ⟨he1.trans he2, ?_⟩
      have clt_trans : ∀ x y z : List Char, charListLt x y = true → charListLt y z = true →
          charListLt x z = true := by
        intro x
        induction x with
        | nil =>
          intro y z hxy hyz
          cases y with
          | nil => simp [charListLt] at hxy
          | cons b bs =>
            cases z with
            | nil => simp [charListLt] at hyz
            | cons c cs => simp [charListLt]
        | cons a as ih =>
          intro y z hxy hyz
          cases y with
          | nil => simp [charListLt] at hxy
          | cons b bs =>
            cases z with
            | nil => simp [charListLt] at hyz
            | cons c cs =>
              simp only [charListLt, Bool.or_eq_true, Bool.and_eq_true,
                decide_eq_true_eq] at hxy hyz ⊢
              rcases hxy with h1 | ⟨hab, h1⟩
              · rcases hyz with h2 | ⟨hbc, h2⟩
                · exact Or.inl (lt_trans h1 h2)
                · exact Or.inl (hbc ▸ h1)
              · rcases hyz with h2 | ⟨hbc, h2⟩
                · subst hab
                  exact Or.inl h2
                · subst hab
                  subst hbc
                  exact Or.inr ⟨rfl, ih bs cs h1 h2⟩
      have eqOfNot : ∀ x y : List Char, charListLt x y = false → charListLt y x = false →
          x = y := by
        intro x
        induction x with
        | nil =>
          intro y h1 h2
          cases y with
          | nil => rfl
          | cons b bs => simp [charListLt] at h1
        | cons a as ih =>
          intro y h1 h2
          cases y with
          | nil => simp [charListLt] at h2
          | cons b bs =>
            simp only [charListLt, Bool.or_eq_false_iff, Bool.and_eq_false_iff,
              decide_eq_false_iff_not, decide_eq_true_eq] at h1 h2
            rcases lt_trichotomy a b with hl | hl | hl
            · exact absurd hl h1.1
            · subst hl
              rcases h1.2 with hbad | hrest1
              · exact absurd rfl hbad
              · rcases h2.2 with hbad | hrest2
                · exact absurd rfl hbad
                · rw [ih bs hrest1 hrest2]
            · exact absurd hl h2.1
      have le_tr : ∀ x y z : List Char, charListLt y x = false → charListLt z y = false →
          charListLt z x = false := by
        intro x y z hyx hzy
        by_contra hc
        rw [Bool.not_eq_false] at hc
        by_cases hxy : charListLt x y = true
        · have h2 := clt_trans z x y hc hxy
          rw [hzy] at h2
          exact Bool.false_ne_true h2
        · have hxyf : charListLt x y = false := by simpa using hxy
          have hx : x = y := eqOfNot x y hxyf hyx
          subst hx
          rw [hzy] at hc
          exact Bool.false_ne_true hc
      have hv1b : charListLt b.value.toList a.value.toList = false := by
        have := hv1
        unfold strLeB strLtB at this
        simpa using this
      have hv2b : charListLt c.value.toList b.value.toList = false := by
        have := hv2
        unfold strLeB strLtB at this
        simpa using this
      have h3 := le_tr a.value.toList b.value.toList c.value.toList hv1b hv2b
      show (! charListLt c.value.toList a.value.toList) = true
      rw [h3]
      rfl

instance : IsTotal Member Member.cle := by
  constructor
  have tri : ∀ x y : Score, Score.ltB x y = true ∨ x = y ∨ Score.ltB y x = true := by
    intro x y
    cases x <;> cases y <;> simp [Score.ltB] <;>
      first
      | rfl
      | · rename_i q1 q2
          rcases lt_trichotomy q1 q2 with h | h | h
          · exact Or.inl h
          · exact Or.inr (Or.inl h)
          · exact Or.inr (Or.inr h)
  have clt_trans : ∀ x y z : List Char, charListLt x y = true → charListLt y z = true →
      charListLt x z = true := by
    intro x
    induction x with
    | nil =>
      intro y z hxy hyz
      cases y with
      | nil => simp [charListLt] at hxy
      | cons b bs =>
        cases z with
        | nil => simp [charListLt] at hyz
        | cons c cs => simp [charListLt]
    | cons a as ih =>
      intro y z hxy hyz
      cases y with
      | nil => simp [charListLt] at hxy
      | cons b bs =>
        cases z with
        | nil => simp [charListLt] at hyz
        | cons c cs =>
          simp only [charListLt, Bool.or_eq_true, Bool.and_eq_true,
            decide_eq_true_eq] at hxy hyz ⊢
          rcases hxy with h1 | ⟨hab, h1⟩
          · rcases hyz with h2 | ⟨hbc, h2⟩
            · exact Or.inl (lt_trans h1 h2)
            · exact Or.inl (hbc ▸ h1)
          · rcases hyz with h2 | ⟨hbc, h2⟩
            · subst hab
              exact Or.inl h2
            · subst hab
              subst hbc
              exact Or.inr ⟨rfl, ih bs cs h1 h2⟩
  have clt_irrefl : ∀ x : List Char, charListLt x x = false := by
    intro x
    induction x with
    | nil => simp [charListLt]
    | cons a as ih => simp [charListLt, ih]
  have leTot : ∀ x y : List Char, (! charListLt y x) = true ∨ (! charListLt x y) = true := by
    intro x y
    by_cases h1 : charListLt y x = true
    · refine Or.inr ?_
      by_contra h2
      simp only [Bool.not_eq_true', Bool.not_eq_false] at h2
      have := clt_trans x y x h2 h1
      rw [clt_irrefl x] at this
      exact Bool.false_ne_true this
    · have h1f : charListLt y x = false := by simpa using h1
      refine Or.inl ?_
      rw [h1f]
      rfl
  intro a b
  rcases tri a.score b.score with h | h | h
  · exact Or.inl (Or.inl h)
  · rcases leTot a.value.toList b.value.toList with hv | hv
    · exact Or.inl (Or.inr ⟨h, hv⟩)
    · exact Or.inr (Or.inr ⟨h.symm, hv⟩)
  · exact Or.inr (Or.inl h)

end Modern

/-! Concrete key spaces used to instantiate the claims. -/

/-- Whether an `Except` result succeeded. -/
def exOk {α : Type} : Except String α → Bool
  | Except.ok _ => true
  | Except.error _ => false

open Modern in
def c1Db : Modern.Db := fun k =>
  if k = "z" then
    some (Value.zset [Member.mk ("a") (Score.fin 1), Member.mk ("b") (Score.fin 2)])
  else none

def c2Db : OldList.Db := fun k =>
  if k = "l" then some (OldList.GoValue.list [Scalar.str ("a")]) else none

def c2WDb : OldList.Db := fun k =>
  if k = "l" then
    some (OldList.GoValue.list [Scalar.int 1, Scalar.str ("a"), Scalar.int 1])
  else none

def c3EmptyDb : Modern.Db := fun _ => none

open Modern in
def c3Db : Modern.Db := fun k =>
  if k = "z" then some (Value.zset [Member.mk ("a") (Score.fin 1)]) else none

open Modern in
def c4Db : Modern.Db := fun k =>
  if k = "z" then some (Value.zset [Member.mk ("a") (Score.fin 1)]) else none

open Modern in
def c5Set : List Modern.Member :=
  [Member.mk ("b") (Score.fin 2), Member.mk ("a") (Score.fin 1), Member.mk ("c") (Score.fin 1)]

def c5Db : Modern.Db := fun k =>
  if k = "z" then some (Modern.Value.zset c5Set) else none

def c6Empty : OldList.Db := fun _ => none

def c6Step1 : Except String (String × OldList.Db) :=
  OldList.handleRPush ["rpush", "l", "1", "2", "3"] c6Empty

def c6Db1 : OldList.Db :=
  match c6Step1 with
  | Except.ok p => p.2
  | Except.error _ => c6Empty

def c7Db : OldList.Db := fun k =>
  if k = "l" then some (OldList.GoValue.list [Scalar.str ("a")]) else none

def c7WDb : OldList.Db := fun k =>
  if k = "l" then some (OldList.GoValue.list [Scalar.str ("x"), Scalar.str ("y")]) else none

def c8HDb : Modern.Db := fun k =>
  if k = "h" then some (Modern.Value.hash [(("f"), Scalar.str ("v"))]) else none

open Modern in
def c8ZDb : Modern.Db := fun k =>
  if k = "z" then some (Value.zset [Member.mk ("a") (Score.fin 1)]) else none

open Modern in
def c8SDb : Modern.Db := fun k =>
  if k = "s" then some (Value.zset [Member.mk ("a") (Score.fin 1)]) else none

open Modern in
def c8LDb : Modern.Db := fun k =>
  if k = "w" then some (Value.zset [Member.mk ("a") (Score.fin 1)]) else none

def c10Db : Modern.Db := fun k =>
  if k = "s" then some (Modern.Value.str ("hello")) else none

/-! ## Helper lemmas -/

theorem filterMap_id_map_some (l : List Scalar) : (l.map some).filterMap id = l := by
  induction l with
  | nil => rfl
  | cons e rest ih => simp [ih]

theorem lrem_markHead_filterMap (value : String) (l : List Scalar) :
    ∀ b : Nat,
      (OldList.markHead value l b).filterMap id = OldList.removeFirstMatches value l b := by
  induction l with
  | nil =>
    intro b
    simp [OldList.markHead, OldList.removeFirstMatches]
  | cons e rest ih =>
    intro b
    by_cases hb : b = 0
    · subst hb
      simp only [OldList.markHead, OldList.removeFirstMatches, if_pos rfl]
      exact filterMap_id_map_some (e :: rest)
    · by_cases hm : printScalar e = value
      · simp [OldList.markHead, OldList.removeFirstMatches, hb, hm, ih]
      · simp [OldList.markHead, OldList.removeFirstMatches, hb, hm, ih]

/-! ## C1: ZLEXCOUNT and unequal scores -/

/-- C1: the claim says ZLEXCOUNT returns 0 whenever the records do not all
carry the same score (the last record's score included).  The code checks
only the adjacent pairs before the last one (`i < len(members)-2`,
contradicting its own `Check if all members has the same score` comment),
so on the set with records `a` at score 1 and `b` at score 2 -- two
different scores -- it counts and returns `:2` instead of `:0`. -/
theorem c1_zlexcount_code_bug :
    c1Db ("z") = some (Modern.Value.zset
      [Modern.Member.mk ("a") (Modern.Score.fin 1), Modern.Member.mk ("b") (Modern.Score.fin 2)])
    ∧ Modern.Score.fin 1 ≠ Modern.Score.fin 2
    ∧ Modern.handleZLEXCOUNT ["zlexcount", "z", "-", "+"] c1Db = Except.ok (":2\r\n")
    ∧ (":2\r\n" : String) ≠ ":0\r\n" :=
  ⟨rfl, by decide, by decide, by decide⟩

/-! ## C2: LREM scan directions -/

/-- C2 (counterexample): with count 0 the claim says LREM removes every
occurrence of the value; the code's `switch` hits its
`Count is zero, keep list the same` default and stores the list unchanged,
so the single occurrence of `a` survives. -/
theorem c2_lrem_zero_keeps_list :
    (OldList.handleLRem ["lrem", "l", "0", "a"] c2Db).toOption.map (fun p => p.2 ("l")) =
      some (some (OldList.GoValue.list [Scalar.str ("a")]))
    ∧ OldList.GoValue.list [Scalar.str ("a")] ≠ OldList.GoValue.list [] :=
  ⟨by decide, by decide⟩

/-- C2 (amended): LREM with a positive count removes up to that many
matches scanning head to tail, with a negative count scanning tail to head,
and with count zero stores the list unchanged (it does not remove all
occurrences). -/
theorem c2_lrem_scan_directions (db : OldList.Db) (key ctok value : String) (count : ℤ)
    (l : List Scalar)
    (hdb : db key = some (OldList.GoValue.list l))
    (hc : adaptType ctok = Scalar.int count) :
    OldList.handleLRem ["lrem", key, ctok, value] db =
      Except.ok (OldList.OK, OldList.dbSet db key (OldList.GoValue.list
        (if 0 < count then OldList.removeFirstMatches value l count.natAbs
         else if count < 0 then OldList.removeLastMatches value l count.natAbs
         else l))) := by
  simp only [OldList.handleLRem, hc, hdb]
  rcases lt_trichotomy 0 count with h | h | h
  · have h2 : ¬ count < 0 := by omega
    simp [h, h2, lrem_markHead_filterMap value l count.natAbs]
  · have h0 : count = 0 := h.symm
    subst h0
    simp [filterMap_id_map_some l]
  · have h2 : ¬ 0 < count := by omega
    simp [h, h2, List.filterMap_reverse,
      lrem_markHead_filterMap value l.reverse count.natAbs, OldList.removeLastMatches]

theorem c2_lrem_scan_directions_witness :
    c2WDb ("l") = some (OldList.GoValue.list [Scalar.int 1, Scalar.str ("a"), Scalar.int 1])
    ∧ adaptType ("2") = Scalar.int 2
    ∧ OldList.handleLRem ["lrem", "l", "2", "1"] c2WDb =
        Except.ok (OldList.OK, OldList.dbSet c2WDb ("l") (OldList.GoValue.list
          (if (0 : ℤ) < 2 then
            OldList.removeFirstMatches ("1") [Scalar.int 1, Scalar.str ("a"), Scalar.int 1]
              (2 : ℤ).natAbs
           else if (2 : ℤ) < 0 then
            OldList.removeLastMatches ("1") [Scalar.int 1, Scalar.str ("a"), Scalar.int 1]
              (2 : ℤ).natAbs
           else [Scalar.int 1, Scalar.str ("a"), Scalar.int 1]))) :=
  ⟨rfl, by decide,
    c2_lrem_scan_directions c2WDb ("l") ("2") ("1") 2
      [Scalar.int 1, Scalar.str ("a"), Scalar.int 1] rfl (by decide)⟩

/-! ## C6: list scenario replies -/

/-- C6 (counterexample): the claim says `RPUSH l 1 2 3` starting from an
absent key replies with the integer `:3`; the handler replies with the `OK`
constant `+OK\r\n\n`. -/
theorem c6_rpush_reply_counterexample :
    c6Step1.toOption.map Prod.fst = some ("+OK\r\n\n")
    ∧ ("+OK\r\n\n" : String) ≠ ":3\r\n" :=
  ⟨by decide, by decide⟩

/-- C6 (amended): starting from an absent key `l`, `RPUSH l 1 2 3` replies
`+OK\r\n\n` (the module's `OK` constant, not the new length),
`LRANGE l 0 -1` replies with the three-element RESP array carrying a
trailing extra newline, and `LPOP l` replies with the simple string
`+1\r\n\n` (not a bulk string). -/
theorem c6_scenario_replies :
    c6Step1.toOption.map Prod.fst = some OldList.OK
    ∧ OldList.handleLRange ["lrange", "l", "0", "-1"] c6Db1 =
        Except.ok ("*3\r\n$1\r\n1\r\n$1\r\n2\r\n$1\r\n3\r\n\n")
    ∧ (OldList.handlePop ["lpop", "l"] c6Db1).toOption.map Prod.fst = some ("+1\r\n\n") :=
  ⟨by decide, by decide, by decide⟩

/-! ## C7: index handling of the list commands -/

/-- C7 (counterexample): the claim says a negative index counts from the
tail, so `LINDEX l -1` on the one-element list `[a]` would return `a`; the
handler rejects every negative index with an error. -/
theorem c7_lindex_negative_counterexample :
    OldList.handleLIndex ["lindex", "l", "-1"] c7Db =
      Except.error ("index must be within list range")
    ∧ (Except.error ("index must be within list range") : Except String String) ≠
        Except.ok ("+a\r\n\n") :=
  ⟨by decide, by decide⟩

/-- C7 (amended): LINDEX accepts exactly the indices `0 <= i < len` and
errors on all others (negative indices are not tail-relative); LRANGE
accepts `-1` as its end index, meaning through the end of the list, while
any other out-of-bounds end index -- and any negative start index -- is an
error, never a silent clamp. -/
theorem c7_index_bounds (db : OldList.Db) (key idxTok stok etok : String)
    (i s e : ℤ) (l : List Scalar)
    (hdb : db key = some (OldList.GoValue.list l))
    (hi : adaptType idxTok = Scalar.int i)
    (hs : adaptType stok = Scalar.int s)
    (he : adaptType etok = Scalar.int e) :
    (OldList.handleLIndex ["lindex", key, idxTok] db =
      if 0 ≤ i ∧ i < (l.length : ℤ) then
        Except.ok ("+" ++ printScalar (l.getD i.toNat (Scalar.str (""))) ++ "\r\n\n")
      else Except.error ("index must be within list range"))
    ∧ (OldList.handleLRange ["lrange", key, stok, "-1"] db =
      if 0 ≤ s ∧ s < (l.length : ℤ) then
        Except.ok ("*" ++ toString ((l.length : ℤ) - s) ++ "\r\n" ++
          OldList.lrangeBody (l.drop s.toNat) ++ "\n")
      else Except.error ("start index not within list range"))
    ∧ (if (0 ≤ s ∧ s < (l.length : ℤ)) ∧ ¬ ((0 ≤ e ∧ e < (l.length : ℤ)) ∨ e = -1) then
        OldList.handleLRange ["lrange", key, stok, etok] db =
          Except.error ("end index must be within list range or -1")
      else True) := by
  have hm1 : adaptType ("-1") = Scalar.int (-1) := by decide
  refine ⟨?_, ?_, ?_⟩
  · simp only [OldList.handleLIndex, hi, hdb]
  · simp only [OldList.handleLRange, hs, hm1, hdb]
    by_cases hc : 0 ≤ s ∧ s < (l.length : ℤ)
    · simp [hc]
    · simp [hc]
  · by_cases hcc : (0 ≤ s ∧ s < (l.length : ℤ)) ∧ ¬ ((0 ≤ e ∧ e < (l.length : ℤ)) ∨ e = -1)
    · rw [if_pos hcc]
      simp only [OldList.handleLRange, hs, he, hdb]
      simp [hcc.1, hcc.2]
    · rw [if_neg hcc]
      trivial

theorem c7_index_bounds_witness :
    c7WDb ("l") = some (OldList.GoValue.list [Scalar.str ("x"), Scalar.str ("y")])
    ∧ adaptType ("-1") = Scalar.int (-1)
    ∧ adaptType ("0") = Scalar.int 0
    ∧ adaptType ("5") = Scalar.int 5
    ∧ ((OldList.handleLIndex ["lindex", "l", "-1"] c7WDb =
        if (0 : ℤ) ≤ -1 ∧ (-1 : ℤ) < (([Scalar.str ("x"), Scalar.str ("y")] :
            List Scalar).length : ℤ) then
          Except.ok ("+" ++ printScalar (([Scalar.str ("x"), Scalar.str ("y")] :
            List Scalar).getD (-1 : ℤ).toNat (Scalar.str (""))) ++ "\r\n\n")
        else Except.error ("index must be within list range"))
      ∧ (OldList.handleLRange ["lrange", "l", "0", "-1"] c7WDb =
        if (0 : ℤ) ≤ 0 ∧ (0 : ℤ) < (([Scalar.str ("x"), Scalar.str ("y")] :
            List Scalar).length : ℤ) then
          Except.ok ("*" ++ toString ((([Scalar.str ("x"), Scalar.str ("y")] :
              List Scalar).length : ℤ) - 0) ++ "\r\n" ++
            OldList.lrangeBody (([Scalar.str ("x"), Scalar.str ("y")] :
              List Scalar).drop (0 : ℤ).toNat) ++ "\n")
        else Except.error ("start index not within list range"))
      ∧ (if ((0 : ℤ) ≤ 0 ∧ (0 : ℤ) < (([Scalar.str ("x"), Scalar.str ("y")] :
            List Scalar).length : ℤ)) ∧
          ¬ (((0 : ℤ) ≤ 5 ∧ (5 : ℤ) < (([Scalar.str ("x"), Scalar.str ("y")] :
            List Scalar).length : ℤ)) ∨ (5 : ℤ) = -1) then
          OldList.handleLRange ["lrange", "l", "0", "5"] c7WDb =
            Except.error ("end index must be within list range or -1")
        else True)) :=
  ⟨rfl, by decide, by decide, by decide,
    c7_index_bounds c7WDb ("l") ("-1") ("0") ("5") (-1) 0 5
      [Scalar.str ("x"), Scalar.str ("y")] rfl (by decide) (by decide) (by decide)⟩

/-! ## C4: ZADD option conflicts -/

/-- Invariant of the ZADD option loop: without an `xx` token, an `nx`
together with a `gt`/`lt` (in either order, also meeting a matching state)
always ends in an error. -/
theorem zadd_options_nx_gtlt_conflict (n : Nat) :
    ∀ (opts : List String) (st : Modern.ZaddOpts),
      "xx" ∉ opts.map low →
      ((("nx" ∈ opts.map low ∨ st.policy = some ("nx")) ∧
        ("gt" ∈ opts.map low ∨ "lt" ∈ opts.map low)) →
        exOk (Modern.parseZaddOptionsAux n opts st) = false)
      ∧ (("nx" ∈ opts.map low ∧ st.comp.isSome = true) →
        exOk (Modern.parseZaddOptionsAux n opts st) = false) := by
  intro opts
  induction opts with
  | nil =>
    intro st hxx
    constructor
    · rintro ⟨_, hgl⟩
      rcases hgl with h | h <;> simp at h
    · rintro ⟨hnx, _⟩
      simp at hnx
  | cons o rest ih =>
    intro st hxx
    have hxx1 : low o ≠ "xx" := by
      intro h
      exact hxx (by simp [h])
    have hxxr : "xx" ∉ rest.map low := by
      intro h
      exact hxx (by simp [h])
    have memNx : "nx" ∈ List.map low (o :: rest) → low o ≠ "nx" → "nx" ∈ rest.map low := by
      intro h hne
      rw [List.map_cons] at h
      rcases List.mem_cons.mp h with h1 | h1
      · exact absurd h1.symm hne
      · exact h1
    have memGl : ("gt" ∈ List.map low (o :: rest) ∨ "lt" ∈ List.map low (o :: rest)) →
        low o ≠ "gt" → low o ≠ "lt" →
        ("gt" ∈ rest.map low ∨ "lt" ∈ rest.map low) := by
      rintro (h | h) hg hl
      · rw [List.map_cons] at h
        rcases List.mem_cons.mp h with h1 | h1
        · exact absurd h1.symm hg
        · exact Or.inl h1
      · rw [List.map_cons] at h
        rcases List.mem_cons.mp h with h1 | h1
        · exact absurd h1.symm hl
        · exact Or.inr h1
    by_cases h1 : low o = "nx"
    · -- policy branch with `nx`
      by_cases h2 : st.comp.isSome
      · constructor
        · rintro ⟨_, _⟩
          simp [Modern.parseZaddOptionsAux, h1, h2, exOk]
        · rintro ⟨_, _⟩
          simp [Modern.parseZaddOptionsAux, h1, h2, exOk]
      · have hstep : Modern.parseZaddOptionsAux n (o :: rest) st =
            Modern.parseZaddOptionsAux n rest { st with policy := some (low o) } := by
          simp [Modern.parseZaddOptionsAux, h1, h2]
        constructor
        · rintro ⟨_, hgl⟩
          rw [hstep]
          refine (ih { st with policy := some (low o) } hxxr).1 ⟨Or.inr (by simp [h1]), ?_⟩
          exact memGl hgl (by simp [h1]) (by simp [h1])
        · rintro ⟨_, hcomp⟩
          exact absurd hcomp h2
    · by_cases h3 : low o = "gt" ∨ low o = "lt"
      · -- comparison branch
        by_cases h4 : st.policy = some ("nx")
        · have herr : exOk (Modern.parseZaddOptionsAux n (o :: rest) st) = false := by
            rcases h3 with h3 | h3 <;> simp [Modern.parseZaddOptionsAux, h3, h4, exOk]
          exact ⟨fun _ => herr, fun _ => herr⟩
        · have hstep : Modern.parseZaddOptionsAux n (o :: rest) st =
              Modern.parseZaddOptionsAux n rest { st with comp := some (low o) } := by
            rcases h3 with h3 | h3 <;> simp [Modern.parseZaddOptionsAux, h3, h4, hxx1, h1]
          constructor
          · rintro ⟨hnx, _⟩
            rw [hstep]
            have hnxr : "nx" ∈ rest.map low := by
              rcases hnx with h | h
              · exact memNx h h1
              · exact absurd h h4
            exact (ih { st with comp := some (low o) } hxxr).2 ⟨hnxr, by simp⟩
          · rintro ⟨hnx, _⟩
            rw [hstep]
            exact (ih { st with comp := some (low o) } hxxr).2 ⟨memNx hnx h1, by simp⟩
      · have hg : low o ≠ "gt" := fun h => h3 (Or.inl h)
        have hl : low o ≠ "lt" := fun h => h3 (Or.inr h)
        by_cases h5 : low o = "ch"
        · have hstep : Modern.parseZaddOptionsAux n (o :: rest) st =
              Modern.parseZaddOptionsAux n rest { st with changed := true } := by
            simp [Modern.parseZaddOptionsAux, h5]
          constructor
          · rintro ⟨hnx, hgl⟩
            rw [hstep]
            refine (ih { st with changed := true } hxxr).1 ⟨?_, memGl hgl hg hl⟩
            rcases hnx with h | h
            · exact Or.inl (memNx h h1)
            · exact Or.inr h
          · rintro ⟨hnx, hcomp⟩
            rw [hstep]
            exact (ih { st with changed := true } hxxr).2 ⟨memNx hnx h1, hcomp⟩
        · by_cases h6 : low o = "incr"
          · by_cases h7 : 1 < n
            · have herr : exOk (Modern.parseZaddOptionsAux n (o :: rest) st) = false := by
                simp [Modern.parseZaddOptionsAux, h6, h7, hxx1, h1, hg, hl, h5, exOk]
              exact ⟨fun _ => herr, fun _ => herr⟩
            · have hstep : Modern.parseZaddOptionsAux n (o :: rest) st =
                  Modern.parseZaddOptionsAux n rest { st with incr := true } := by
                simp [Modern.parseZaddOptionsAux, h6, h7, hxx1, h1, hg, hl, h5]
              constructor
              · rintro ⟨hnx, hgl⟩
                rw [hstep]
                refine (ih { st with incr := true } hxxr).1 ⟨?_, memGl hgl hg hl⟩
                rcases hnx with h | h
                · exact Or.inl (memNx h h1)
                · exact Or.inr h
              · rintro ⟨hnx, hcomp⟩
                rw [hstep]
                exact (ih { st with incr := true } hxxr).2 ⟨memNx hnx h1, hcomp⟩
          · have herr : exOk (Modern.parseZaddOptionsAux n (o :: rest) st) = false := by
              simp [Modern.parseZaddOptionsAux, hxx1, h1, hg, hl, h5, h6, exOk]
            exact ⟨fun _ => herr, fun _ => herr⟩

/-- C4 (counterexample): the claim says supplying both NX and XX is an
error; the handler accepts `ZADD k NX XX 7 q` -- the later flag simply
overwrites the earlier one -- and replies with a count. -/
theorem c4_nx_xx_counterexample :
    (Modern.handleZADD ["zadd", "z", "nx", "xx", "7", "q"] c4Db).toOption.map Prod.fst =
      some (":0\r\n")
    ∧ Modern.parseZaddOptions ["nx", "xx"] 1 =
        Except.ok ⟨some ("xx"), none, false, false⟩ :=
  ⟨by decide, by decide⟩

/-- C4 (amended): NX and XX together are not rejected -- the option loop
keeps the last policy flag seen (in either order) -- while GT or LT
together with NX is an error in every argument order, as long as no XX
token also appears. -/
theorem c4_zadd_option_conflicts (opts : List String) (n : Nat)
    (hxx : "xx" ∉ opts.map low)
    (hnx : "nx" ∈ opts.map low)
    (hgl : "gt" ∈ opts.map low ∨ "lt" ∈ opts.map low) :
    exOk (Modern.parseZaddOptions opts n) = false
    ∧ Modern.parseZaddOptions ["nx", "xx"] 1 =
        Except.ok ⟨some ("xx"), none, false, false⟩
    ∧ Modern.parseZaddOptions ["xx", "nx"] 1 =
        Except.ok ⟨some ("nx"), none, false, false⟩ :=
  ⟨(zadd_options_nx_gtlt_conflict n opts Modern.zaddOpts0 hxx).1 ⟨Or.inl hnx, hgl⟩,
    by decide, by decide⟩

theorem c4_zadd_option_conflicts_witness :
    ("xx" ∉ ["nx", "gt"].map low ∧ "nx" ∈ ["nx", "gt"].map low ∧
      ("gt" ∈ ["nx", "gt"].map low ∨ "lt" ∈ ["nx", "gt"].map low))
    ∧ (exOk (Modern.parseZaddOptions ["nx", "gt"] 1) = false
      ∧ Modern.parseZaddOptions ["nx", "xx"] 1 =
          Except.ok ⟨some ("xx"), none, false, false⟩
      ∧ Modern.parseZaddOptions ["xx", "nx"] 1 =
          Except.ok ⟨some ("nx"), none, false, false⟩) :=
  ⟨⟨by decide, by decide, by decide⟩,
    c4_zadd_option_conflicts ["nx", "gt"] 1 (by decide) (by decide) (by decide)⟩

/-! ## C3: ZADD with the INCR flag -/

theorem find_map_replace (m : Modern.Member) :
    ∀ s : List Modern.Member,
      (s.find? (fun x => x.value = m.value)).isSome = true →
      ((s.map (fun x => if x.value = m.value then m else x)).find?
        (fun x => x.value = m.value)) = some m := by
  intro s
  induction s with
  | nil =>
    intro h
    simp at h
  | cons a rest ih =>
    intro h
    by_cases ha : a.value = m.value
    · simp [List.find?, ha]
    · have h2 : (rest.find? (fun x => x.value = m.value)).isSome = true := by
        simpa [List.find?, ha] using h
      simpa [List.find?, ha] using ih h2

theorem find_append_absent (m : Modern.Member) :
    ∀ s : List Modern.Member,
      s.find? (fun x => x.value = m.value) = none →
      (s ++ [m]).find? (fun x => x.value = m.value) = some m := by
  intro s
  induction s with
  | nil =>
    intro _
    simp [List.find?]
  | cons a rest ih =>
    intro h
    by_cases ha : a.value = m.value
    · exfalso
      simp [List.find?, ha] at h
    · have h2 : rest.find? (fun x => x.value = m.value) = none := by
        simpa [List.find?, ha] using h
      simpa [List.find?, ha] using ih h2

/-- After `upsert s m`, looking the value of `m` up yields `m`. -/
theorem memberGet_upsert (s : List Modern.Member) (m : Modern.Member) :
    Modern.memberGet (Modern.upsert s m) m.value = some m := by
  unfold Modern.upsert Modern.memberGet
  by_cases hf : (s.find? (fun x => x.value = m.value)).isSome = true
  · rw [if_pos hf]
    exact find_map_replace m s hf
  · rw [if_neg hf]
    have hnone : s.find? (fun x => x.value = m.value) = none := by
      rcases hx : s.find? (fun x => x.value = m.value) with _ | w
      · exact hx
      · exact absurd (by simp [hx]) hf
    exact find_append_absent m s hnone

/-- C3 (counterexample): `ZADD z INCR 5 a` on an absent key replies with
the count `:1`, not with the new score of `a` (every INCR score reply is
`+` followed by the percent-f rendering; `:1\r\n` is not of that shape). -/
theorem c3_zadd_incr_missing_key_counterexample :
    (Modern.handleZADD ["zadd", "z", "incr", "5", "a"] c3EmptyDb).toOption.map Prod.fst =
      some (":1\r\n")
    ∧ (":1\r\n" : String) ≠ "+" ++ Modern.fmtScore (Modern.Score.fin 5) ++ "\r\n" := by
  constructor
  · decide
  · intro h
    have h2 := congrArg (fun s => s.data.head?) h
    have hr : ∀ X Y : String, (("+" ++ X) ++ Y).data.head? = some '+' := by
      intro X Y
      obtain ⟨xd⟩ := X
      obtain ⟨yd⟩ := Y
      rfl
    have h3 : some ':' =
        ("+" ++ Modern.fmtScore (Modern.Score.fin 5) ++ "\r\n").data.head? := h2
    rw [hr] at h3
    simp at h3

/-- C3 (amended): ZADD with INCR requires exactly one score/member pair
(two pairs are an error); when the key exists the provided score is added
to the member's existing score and the reply is the new score formatted
with percent-f; but when the key does not exist the INCR flag is ignored --
a fresh one-member set is stored and the reply is the count `:1`, not the
score. -/
theorem c3_zadd_incr (db db2 : Modern.Db) (key v sTok : String) (q qold : ℚ)
    (s : List Modern.Member)
    (hkey : Modern.tokenIsScore key = false)
    (hs : Modern.parseScore sTok = some (Modern.Score.fin q))
    (hdb : db key = some (Modern.Value.zset s))
    (hget : Modern.memberGet s v = some (Modern.Member.mk v (Modern.Score.fin qold)))
    (hdb2 : db2 key = none) :
    (Modern.handleZADD ["zadd", key, "incr", sTok, v] db =
      Except.ok ("+" ++ Modern.fmtScore (Modern.Score.fin (qold + q)) ++ "\r\n",
        Modern.dbSet db key (Modern.Value.zset
          (Modern.upsert s (Modern.Member.mk v (Modern.Score.fin (qold + q)))))))
    ∧ (Modern.handleZADD ["zadd", key, "incr", sTok, v] db2 =
      Except.ok (":1\r\n",
        Modern.dbSet db2 key (Modern.Value.zset [Modern.Member.mk v (Modern.Score.fin q)])))
    ∧ (Modern.handleZADD ["zadd", key, "incr", sTok, v, sTok, v] db =
      Except.error ("cannot pass more than one score/member pair when INCR flag is provided")) := by
  have hzadd : Modern.tokenIsScore "zadd" = false := by decide
  have hincr : Modern.tokenIsScore "incr" = false := by decide
  have hsT : Modern.tokenIsScore sTok = true := by
    simp [Modern.tokenIsScore, hs]
  have hopts : Modern.parseZaddOptions ["incr"] 1 = Except.ok ⟨none, none, false, true⟩ := by
    decide
  have hopts2 : Modern.parseZaddOptions ["incr"] 2 =
      Except.error ("cannot pass more than one score/member pair when INCR flag is provided") := by
    decide
  have hget2 : Modern.memberGet
      (Modern.upsert s (Modern.Member.mk v (Modern.Score.fin (qold + q)))) v =
      some (Modern.Member.mk v (Modern.Score.fin (qold + q))) :=
    memberGet_upsert s (Modern.Member.mk v (Modern.Score.fin (qold + q)))
  refine ⟨?_, ?_, ?_⟩
  · simp [Modern.handleZADD, Modern.firstIdxWhere, hzadd, hkey, hincr, hsT,
      Modern.parseMemberPairs, hs, hopts, hdb, Modern.addOrUpdate, hget,
      Modern.scoreAdd, hget2]
  · simp [Modern.handleZADD, Modern.firstIdxWhere, hzadd, hkey, hincr, hsT,
      Modern.parseMemberPairs, hs, hopts, hdb2, Modern.newSortedSet, Modern.upsert,
      List.find?]
    decide
  · simp [Modern.handleZADD, Modern.firstIdxWhere, hzadd, hkey, hincr, hsT,
      Modern.parseMemberPairs, hs, hopts2, hdb]

theorem c3_zadd_incr_witness :
    (Modern.tokenIsScore ("z") = false
      ∧ Modern.parseScore ("5") = some (Modern.Score.fin 5)
      ∧ c3Db ("z") = some (Modern.Value.zset [Modern.Member.mk ("a") (Modern.Score.fin 1)])
      ∧ Modern.memberGet [Modern.Member.mk ("a") (Modern.Score.fin 1)] ("a") =
          some (Modern.Member.mk ("a") (Modern.Score.fin 1))
      ∧ c3EmptyDb ("z") = none)
    ∧ ((Modern.handleZADD ["zadd", "z", "incr", "5", "a"] c3Db =
        Except.ok ("+" ++ Modern.fmtScore (Modern.Score.fin (1 + 5)) ++ "\r\n",
          Modern.dbSet c3Db ("z") (Modern.Value.zset
            (Modern.upsert [Modern.Member.mk ("a") (Modern.Score.fin 1)]
              (Modern.Member.mk ("a") (Modern.Score.fin (1 + 5)))))))
      ∧ (Modern.handleZADD ["zadd", "z", "incr", "5", "a"] c3EmptyDb =
        Except.ok (":1\r\n",
          Modern.dbSet c3EmptyDb ("z") (Modern.Value.zset
            [Modern.Member.mk ("a") (Modern.Score.fin 5)])))
      ∧ (Modern.handleZADD ["zadd", "z", "incr", "5", "a", "5", "a"] c3Db =
        Except.error ("cannot pass more than one score/member pair when INCR flag is provided"))) :=
  ⟨⟨by decide, by decide, rfl, by decide, rfl⟩,
    c3_zadd_incr c3Db c3EmptyDb ("z") ("a") ("5") 5 1
      [Modern.Member.mk ("a") (Modern.Score.fin 1)]
      (by decide) (by decide) rfl (by decide) rfl⟩

/-! ## C8: removals never delete the key -/

theorem dbSet_same (db : Modern.Db) (k : String) (v : Modern.Value) :
    Modern.dbSet db k v k = some v := by
  simp [Modern.dbSet]

/-- C8: HDEL, ZREM, ZREMRANGEBYSCORE and ZREMRANGEBYLEX store the
(possibly empty) collection back at the key: after any of them the key is
still present -- for HDEL and ZREM with exactly the hash/set that the
deletion fold leaves, which is the empty collection when the last element
is removed.  None of the handlers deletes the key. -/
theorem c8_removals_keep_key (dbH dbZ dbS dbL : Modern.Db)
    (kH kZ kS kL f0 m0 minTok maxTok minL maxL : String)
    (fs ms : List String) (h : List (String × Scalar)) (s sS sL : List Modern.Member)
    (lo hi : Modern.Score)
    (hH : dbH kH = some (Modern.Value.hash h))
    (hZ : dbZ kZ = some (Modern.Value.zset s))
    (hS : dbS kS = some (Modern.Value.zset sS))
    (hmin : Modern.parseScore minTok = some lo)
    (hmax : Modern.parseScore maxTok = some hi)
    (hL : dbL kL = some (Modern.Value.zset sL)) :
    ((Modern.handleHDEL ("hdel" :: kH :: f0 :: fs) dbH).toOption.map (fun p => p.2 kH) =
      some (some (Modern.Value.hash ((f0 :: fs).foldl Modern.hdelStep (0, h)).2)))
    ∧ ((Modern.handleZREM ("zrem" :: kZ :: m0 :: ms) dbZ).toOption.map (fun p => p.2 kZ) =
      some (some (Modern.Value.zset ((m0 :: ms).foldl Modern.zremStep (0, s)).2)))
    ∧ ((Modern.handleZREMRANGEBYSCORE ["zremrangebyscore", kS, minTok, maxTok] dbS).toOption.map
        (fun p => (p.2 kS).isSome) = some true)
    ∧ ((Modern.handleZREMRANGEBYLEX ["zremrangebylex", kL, minL, maxL] dbL).toOption.map
        (fun p => (p.2 kL).isSome) = some true) := by
  refine ⟨?_, ?_, ?_, ?_⟩
  · simp [Modern.handleHDEL, hH, Modern.dbSet, Except.toOption]
  · simp [Modern.handleZREM, hZ, Modern.dbSet, Except.toOption]
  · simp [Modern.handleZREMRANGEBYSCORE, hmin, hmax, hS, Modern.dbSet, Except.toOption]
  · by_cases he : Modern.eqScoresPref (Modern.getAll sL) ((Modern.getAll sL).length - 1) = true
    · simp [Modern.handleZREMRANGEBYLEX, hL, he, Modern.dbSet, Except.toOption]
    · simp [Modern.handleZREMRANGEBYLEX, hL, he, Modern.dbSet, Except.toOption, hL]

theorem c8_removals_keep_key_witness :
    (c8HDb ("h") = some (Modern.Value.hash [(("f"), Scalar.str ("v"))])
      ∧ c8ZDb ("z") = some (Modern.Value.zset [Modern.Member.mk ("a") (Modern.Score.fin 1)])
      ∧ c8SDb ("s") = some (Modern.Value.zset [Modern.Member.mk ("a") (Modern.Score.fin 1)])
      ∧ Modern.parseScore ("0") = some (Modern.Score.fin 0)
      ∧ Modern.parseScore ("5") = some (Modern.Score.fin 5)
      ∧ c8LDb ("w") = some (Modern.Value.zset [Modern.Member.mk ("a") (Modern.Score.fin 1)]))
    ∧ (((Modern.handleHDEL ["hdel", "h", "f"] c8HDb).toOption.map (fun p => p.2 ("h")) =
        some (some (Modern.Value.hash
          ((["f"] : List String).foldl Modern.hdelStep (0, [(("f"), Scalar.str ("v"))])).2)))
      ∧ ((Modern.handleZREM ["zrem", "z", "a"] c8ZDb).toOption.map (fun p => p.2 ("z")) =
        some (some (Modern.Value.zset
          ((["a"] : List String).foldl Modern.zremStep
            (0, [Modern.Member.mk ("a") (Modern.Score.fin 1)])).2)))
      ∧ ((Modern.handleZREMRANGEBYSCORE ["zremrangebyscore", "s", "0", "5"] c8SDb).toOption.map
          (fun p => (p.2 ("s")).isSome) = some true)
      ∧ ((Modern.handleZREMRANGEBYLEX ["zremrangebylex", "w", "-", "+"] c8LDb).toOption.map
          (fun p => (p.2 ("w")).isSome) = some true)) :=
  ⟨⟨rfl, rfl, rfl, by decide, by decide, rfl⟩,
    c8_removals_keep_key c8HDb c8ZDb c8SDb c8LDb
      ("h") ("z") ("s") ("w") ("f") ("a") ("0") ("5") ("-") ("+")
      [] [] [(("f"), Scalar.str ("v"))]
      [Modern.Member.mk ("a") (Modern.Score.fin 1)]
      [Modern.Member.mk ("a") (Modern.Score.fin 1)]
      [Modern.Member.mk ("a") (Modern.Score.fin 1)]
      (Modern.Score.fin 0) (Modern.Score.fin 5)
      rfl rfl rfl (by decide) (by decide) rfl⟩

/-! ## C9: GETRANGE and SUBSTR share a handler -/

/-- C9: both registry entries carry `handleSubStr` (and the same key
function), so dispatching `getrange` and `substr` with the same remaining
arguments yields identical results -- the same reply bytes or the same
error -- on every key space. -/
theorem c9_getrange_substr_alias (rest : List String) (db : Modern.Db) :
    Modern.strDispatch ("getrange" :: rest) db = Modern.strDispatch ("substr" :: rest) db := by
  have h1 : Modern.strCommands.find? (fun e => e.command = low ("getrange")) =
      some ⟨"getrange", Modern.StrHandlerId.substr⟩ := by decide
  have h2 : Modern.strCommands.find? (fun e => e.command = low ("substr")) =
      some ⟨"substr", Modern.StrHandlerId.substr⟩ := by decide
  simp only [Modern.strDispatch, h1, h2, Modern.runStrHandler]
  rcases rest with _ | ⟨a, _ | ⟨b, _ | ⟨c, _ | d⟩⟩⟩ <;> rfl

/-! ## C10: SUBSTR with swapped bounds -/

/-- C10: on an existing string key, when the normalised start index
exceeds the (normalised, adjusted) end index, `handleSubStr` neither
errors nor returns the empty string: it swaps the two bounds and replies
with the characters of the swapped slice in reversed order. -/
theorem c10_substr_reversed_range (db : Modern.Db) (key value sTok eTok : String)
    (s0 e0 ns ne : ℤ)
    (hdb : db key = some (Modern.Value.str value))
    (hsT : adaptType sTok = Scalar.int s0)
    (heT : adaptType eTok = Scalar.int e0)
    (hns : ns = (if s0 < 0 then (value.length : ℤ) - s0.natAbs else s0))
    (hne : ne = (if e0 < 0 then (value.length : ℤ) - e0.natAbs else e0))
    (hlt : ne < ns)
    (h0 : 0 ≤ ne)
    (hL : ns ≤ (value.length : ℤ)) :
    Modern.handleSubStr ["substr", key, sTok, eTok] db =
      Except.ok ("$" ++ toString (ns - ne).toNat ++ "\r\n" ++
        String.mk (((value.toList.drop ne.toNat).take (ns - ne).toNat).reverse) ++ "\r\n")
    ∧ ((value.toList.drop ne.toNat).take (ns - ne).toNat) ≠ [] := by
  have hlen : ((value.toList.drop ne.toNat).take (ns - ne).toNat).length = (ns - ne).toNat := by
    rw [List.length_take, List.length_drop]
    have hvl : value.toList.length = value.length := rfl
    rw [hvl]
    have hmin : (ns - ne).toNat ≤ value.length - ne.toNat := by omega
    exact Nat.min_eq_left hmin
  constructor
  · simp only [Modern.handleSubStr, hsT, heT, hdb]
    rw [← hns, ← hne]
    have hA : ¬ (0 ≤ ne ∧ ns ≤ ne) := by omega
    have hB : ¬ ((value.length : ℤ) < ne) := by omega
    rw [if_neg hA, if_neg hB, if_pos hlt, if_pos hlt]
    rw [if_pos ⟨h0, hL⟩]
    rw [if_pos hlt]
    have hslen : (String.mk (((value.toList.drop ne.toNat).take (ns - ne).toNat).reverse)).length
        = (ns - ne).toNat := by
      show (((value.toList.drop ne.toNat).take (ns - ne).toNat).reverse).length = _
      rw [List.length_reverse, hlen]
    rw [hslen]
  · intro hq
    have := congrArg List.length hq
    rw [hlen] at this
    simp at this
    omega

theorem c10_substr_reversed_range_witness :
    (c10Db ("s") = some (Modern.Value.str ("hello"))
      ∧ adaptType ("2") = Scalar.int 2
      ∧ adaptType ("0") = Scalar.int 0
      ∧ (2 : ℤ) = (if (2 : ℤ) < 0 then ((("hello" : String).length : ℤ) - (2 : ℤ).natAbs)
          else 2)
      ∧ (0 : ℤ) = (if (0 : ℤ) < 0 then ((("hello" : String).length : ℤ) - (0 : ℤ).natAbs)
          else 0)
      ∧ (0 : ℤ) < 2 ∧ (0 : ℤ) ≤ 0 ∧ (2 : ℤ) ≤ (("hello" : String).length : ℤ))
    ∧ (Modern.handleSubStr ["substr", "s", "2", "0"] c10Db =
        Except.ok ("$" ++ toString ((2 : ℤ) - 0).toNat ++ "\r\n" ++
          String.mk (((("hello" : String).toList.drop (0 : ℤ).toNat).take
            ((2 : ℤ) - 0).toNat).reverse) ++ "\r\n")
      ∧ ((("hello" : String).toList.drop (0 : ℤ).toNat).take ((2 : ℤ) - 0).toNat) ≠ []) :=
  ⟨⟨rfl, by decide, by decide, by decide, by decide, by decide, by decide, by decide⟩,
    c10_substr_reversed_range c10Db ("s") ("hello") ("2") ("0") 2 0 2 0
      rfl (by decide) (by decide) (by decide) (by decide) (by decide) (by decide) (by decide)⟩

/-! ## C5: ZRANGE over the full score range -/

theorem sorted_cle_imp_sle {l : List Modern.Member} (h : List.Sorted Modern.Member.cle l) :
    List.Sorted Modern.Member.sle l := by
  refine List.Pairwise.imp ?_ h
  intro a b hab
  rcases hab with h1 | ⟨he, _⟩
  · show Modern.Score.leB a.score b.score = true
    revert h1
    show Modern.Score.ltB a.score b.score = true → _
    cases a.score <;> cases b.score <;>
      simp [Modern.Score.ltB, Modern.Score.leB] <;> exact le_of_lt
  · show Modern.Score.leB a.score b.score = true
    rw [he]
    cases b.score <;> simp [Modern.Score.leB]

/-- Every score lies between the two infinities. -/
theorem score_between_infinities (m : Modern.Member) :
    (Modern.Score.leB Modern.Score.negInf m.score &&
      Modern.Score.leB m.score Modern.Score.posInf) = true := by
  cases m.score <;> rfl

/-- C5: `ZRANGE k -inf +inf` (the full byscore range) replies with exactly
the members of the set: the reply encodes `getAll`, which is a permutation
of the stored records sorted by score ascending with value-lexicographic
tie-break.  The engine's iteration order is modelled from the spec
(canonical order) and the handler's score-only sort is modelled as a stable
sort, so it leaves that canonical order intact. -/
theorem c5_zrange_full_score_range (db : Modern.Db) (key : String) (s : List Modern.Member)
    (hdb : db key = some (Modern.Value.zset s)) :
    Modern.handleZRANGE ["zrange", key, "-inf", "+inf"] db =
      Except.ok (Modern.zrangeEncode (Modern.getAll s) false)
    ∧ (Modern.getAll s).Perm s
    ∧ List.Sorted Modern.Member.cle (Modern.getAll s) := by
  refine ⟨?_, List.perm_insertionSort _ _, List.sorted_insertionSort _ _⟩
  have hid : List.insertionSort Modern.Member.sle (Modern.getAll s) = Modern.getAll s :=
    List.Sorted.insertionSort_eq (sorted_cle_imp_sle (List.sorted_insertionSort _ _))
  have hminf : Modern.parseScore ("-inf") = some Modern.Score.negInf := by decide
  have hpinf : Modern.parseScore ("+inf") = some Modern.Score.posInf := by decide
  have hlen : (Modern.getAll s).length = s.length := by
    unfold Modern.getAll
    exact List.length_insertionSort _ _
  have hnneg : ¬ ((s.length : ℤ) < 0) := by omega
  simp only [Modern.handleZRANGE, Modern.firstIdxWhere, List.any_nil, List.getD]
  simp only [List.length_cons, List.length_nil, List.drop, List.getElem?_cons_zero,
    List.getElem?_cons_succ, Option.getD_some]
  simp [hminf, hpinf, hdb, hnneg, hid]
  have htake : List.take (s.length + 1) (Modern.getAll s) = Modern.getAll s :=
    List.take_of_length_le (by rw [hlen]; omega)
  rw [htake]
  have hfilter : List.filter
      (fun m => Modern.Score.negInf.leB m.score && m.score.leB Modern.Score.posInf)
      (Modern.getAll s) = Modern.getAll s := by
    rw [List.filter_eq_self]
    intro a _
    exact score_between_infinities a
  rw [hfilter]

theorem c5_zrange_full_score_range_witness :
    c5Db ("z") = some (Modern.Value.zset c5Set)
    ∧ (Modern.handleZRANGE ["zrange", "z", "-inf", "+inf"] c5Db =
        Except.ok (Modern.zrangeEncode (Modern.getAll c5Set) false)
      ∧ (Modern.getAll c5Set).Perm c5Set
      ∧ List.Sorted Modern.Member.cle (Modern.getAll c5Set)) :=
  ⟨rfl, c5_zrange_full_score_range c5Db ("z") c5Set rfl⟩

end EchoVault
